import Mathlib

/-!
Shallow embedding of the `ease-assistant` repository (src/main.py, src/assistant.py,
src/model.py): a FastAPI gateway that runs one conversation turn through a two-node
langgraph state graph (`chatbot` ⇄ `tools`), persisting message history per
`thread_id` with an in-memory checkpointer.

The graph wiring is taken from `src/main.py` (lines 92–134); the semantics of the
langgraph primitives that wiring calls (`tools_condition`, `ToolNode`,
`MemorySaver`, `ainvoke` with its default recursion limit of 25 super-steps,
`astream_events` v2 event kinds) are embedded faithfully to those libraries, since
the source delegates the loop to them.  The model backend is a parameter: a
deterministic function from the advertised tool catalog and the input messages to
a response, given as the list of its streamed text chunks plus requested tool
calls (the non-streaming content of a response is the concatenation of its
chunks, as for a deterministic streaming backend).
-/

namespace EaseAssistant

/-- Roles of langchain messages as used by `src/main.py`. -/
inductive Role
  | system
  | human
  | ai
  | tool
deriving DecidableEq

/-- One requested tool invocation: tool name, unique call identifier, argument payload. -/
structure ToolCall where
  name : String
  id : String
  args : String
deriving DecidableEq

/-- One utterance in a conversation (langchain message shape): `tool_calls` is
nonempty only on assistant messages, `tool_call_id` is set only on tool-result
messages. -/
structure Msg where
  role : Role
  content : String
  tool_calls : List ToolCall
  tool_call_id : Option String
deriving DecidableEq

def SystemMessage (content : String) : Msg := ⟨Role.system, content, [], none⟩

def HumanMessage (content : String) : Msg := ⟨Role.human, content, [], none⟩

def ToolMessage (content : String) (tool_call_id : String) : Msg :=
  ⟨Role.tool, content, [], some tool_call_id⟩

/-- The fixed system instruction of `src/main.py` (SYSTEM_PROMPT, lines 36–53);
text normalized to one line with quote characters elided — no claim depends on
the instruction text itself, only on it being one fixed system message. -/
def SYSTEM_PROMPT : String :=
  "kamu adalah seorang database administrator, kamu akan membantu user untuk mengambil data dari database. Saat user pertama kali bertanya, tugas pertamamu adalah memahami struktur database dengan eksekusi query atas information_schema.columns untuk schema ease_dev dan table vw_trx_export_copy. Setelah kamu mendapatkan skema, gunakan informasi itu untuk membuat query yang menjawab permintaan user. Selalu eksekusi query (menggunakan tools) dan tampilkan hasilnya ke user. Selalu berikan jawaban sesuai konteks pesan user! Jangan pernah beritahu nama database atau table atau shema secara langsung kepada user!"

/-- Concatenation of a list of text chunks (the full text a streaming model
produces for one response). -/
def concatAll (l : List String) : String := l.foldr (fun a b => a ++ b) ""

/-- One model response: the stream of text chunks it produces plus the tool
calls it requests.  Its non-streaming `content` is the concatenation of the
chunks. -/
structure ModelResponse where
  chunks : List String
  tool_calls : List ToolCall

def ModelResponse.content (r : ModelResponse) : String := concatAll r.chunks

/-- A deterministic model backend: `llm_with_tools` = the chat model with the
advertised tool catalog bound (`model.bind_tools(mcp_tools)`), as a function of
the advertised tool names and the input messages. -/
def LLM : Type := List String → List Msg → ModelResponse

/-- The fetched tool set: association of tool name to its implementation, which
either succeeds with a serialized output or fails (raises) with an error text. -/
def Tools : Type := List (String × (String → Except String String))

/-- `src/main.py` line 102–104: the model input built by the `chatbot` node is
the fixed system instruction prepended to the full state history. -/
def buildModelInput (messages : List Msg) : List Msg :=
  SystemMessage SYSTEM_PROMPT :: messages

/-- The assistant message constructed from a model response (what the `chatbot`
node returns to be appended by `add_messages`). -/
def aiMsgOf (r : ModelResponse) : Msg := ⟨Role.ai, r.content, r.tool_calls, none⟩

/-- Routing result of langgraph's `tools_condition`. -/
inductive Route
  | tools
  | endRoute
deriving DecidableEq

/-- langgraph's prebuilt `tools_condition` (used at `src/main.py` line 116):
route to the `tools` node iff the last message carries at least one tool call,
otherwise end the graph. -/
def tools_condition (messages : List Msg) : Route :=
  match messages.getLast? with
  | some m => if m.tool_calls = [] then Route.endRoute else Route.tools
  | none => Route.endRoute

/-- Execution of one tool call by langgraph's prebuilt `ToolNode`
(`src/main.py` line 115): look the tool up by name and invoke it; a raised
error is converted into an error-carrying tool message (default
`handle_tool_errors=True`), an unknown tool name likewise — the node never
raises. -/
def execToolCall (tools : Tools) (tc : ToolCall) : Msg :=
  match tools.lookup tc.name with
  | none => ToolMessage ("Error: " ++ tc.name ++ " is not a valid tool.") tc.id
  | some f =>
    match f tc.args with
    | Except.ok result => ToolMessage result tc.id
    | Except.error e =>
        ToolMessage ("Error: " ++ e ++ "\n Please fix your mistakes.") tc.id

/-- langgraph's `ToolNode`: execute every tool call of the last (assistant)
message, in the order received, producing one tool message per call. -/
def ToolNode (tools : Tools) (messages : List Msg) : List Msg :=
  match messages.getLast? with
  | some m => m.tool_calls.map (execToolCall tools)
  | none => []

/-- One `astream_events` v2 event, as consumed by `stream_generator`
(`src/main.py` lines 190–207): an event kind string plus, for chat-model stream
events, the chunk content, and for tool events, the tool name. -/
structure StreamEvent where
  kind : String
  chunkContent : String
  toolName : String
deriving DecidableEq

def chatChunkEvent (c : String) : StreamEvent := ⟨"on_chat_model_stream", c, ""⟩

/-- Events emitted while the `tools` node executes the given tool calls: v2
emits `on_tool_start`/`on_tool_end` per invocation (there is no `on_tool_call`
event kind in v2). -/
def toolEventsOf (tcs : List ToolCall) : List StreamEvent :=
  tcs.flatMap (fun tc => [⟨"on_tool_start", "", tc.name⟩, ⟨"on_tool_end", "", tc.name⟩])

/-- State accumulated while one graph invocation runs: the persisted message
channel, the inputs sent to the model (one per model invocation, in order), and
the event stream `astream_events` would emit. -/
structure RunState where
  messages : List Msg
  modelInputs : List (List Msg)
  events : List StreamEvent

/-- The two graph nodes of `src/main.py` lines 113–118. -/
inductive Node
  | chatbot
  | tools
deriving DecidableEq

/-- langgraph aborts a graph invocation with `GraphRecursionError` when the
super-step budget (`recursion_limit`, default 25) is exhausted with work
remaining. -/
inductive GraphError
  | recursionLimit
deriving DecidableEq

/-- langgraph's default `recursion_limit`: 25 super-steps per invocation; with
this linear graph each super-step executes exactly one node. -/
def recursion_limit : Nat := 25

/-- Execution of the compiled graph from a pending node with a remaining
super-step budget.  `chatbot` (src/main.py lines 92–110) prepends the system
instruction, invokes the model, and appends only the new assistant message;
`tools_condition` then either ends the graph or routes to `tools`, which
appends one tool message per requested call and routes back to `chatbot`.
Exhausting the budget with a node still pending aborts with
`GraphRecursionError`; the state reached so far is returned alongside (the
checkpointer has persisted it). -/
def runFrom (llm : LLM) (catalog : List String) (tools : Tools) :
    Nat → Node → RunState → RunState × Option GraphError
  | 0, _, s => (s, some GraphError.recursionLimit)
  | Nat.succ n, Node.chatbot, s =>
    let input := buildModelInput s.messages
    let response := llm catalog input
    let s' : RunState :=
      ⟨s.messages ++ [aiMsgOf response],
       s.modelInputs ++ [input],
       s.events ++ response.chunks.map chatChunkEvent⟩
    match tools_condition s'.messages with
    | Route.endRoute => (s', none)
    | Route.tools => runFrom llm catalog tools n Node.tools s'
  | Nat.succ n, Node.tools, s =>
    let results := ToolNode tools s.messages
    let tcs := match s.messages.getLast? with
      | some m => m.tool_calls
      | none => []
    let s' : RunState := ⟨s.messages ++ results, s.modelInputs, s.events ++ toolEventsOf tcs⟩
    runFrom llm catalog tools n Node.chatbot s'

/-- `graph.ainvoke(inputs, config)` for a thread whose prior history is
`history`: the new `HumanMessage` is merged into the message channel by
`add_messages`, then the graph runs from `START → chatbot` under the default
recursion limit. -/
def ainvoke (llm : LLM) (catalog : List String) (tools : Tools)
    (history : List Msg) (userText : String) : RunState × Option GraphError :=
  runFrom llm catalog tools recursion_limit Node.chatbot
    ⟨history ++ [HumanMessage userText], [], []⟩

/-- `MemorySaver`: per-`thread_id` checkpoints, newest first. -/
abbrev Store : Type := List (String × List Msg)

/-- Reading a thread's checkpoint: an unseen `thread_id` yields the empty
history (MemorySaver has no checkpoint for it; the graph starts from the
channel default, an empty message list). -/
def getThread (store : Store) (tid : String) : List Msg :=
  (store.lookup tid).getD []

/-- Writing a thread's checkpoint. -/
def putThread (store : Store) (tid : String) (msgs : List Msg) : Store :=
  (tid, msgs) :: store

/-- Request body of both endpoints (`src/main.py` lines 140–142): `message` and
`thread_id` are both declared as required fields. -/
structure ChatRequest where
  message : String
  thread_id : String
deriving DecidableEq

/-- Pydantic validation of the request body: both declared fields are required,
a body missing either is rejected. -/
def parseChatRequest (message : Option String) (thread_id : Option String) :
    Option ChatRequest :=
  match message, thread_id with
  | some m, some t => some ⟨m, t⟩
  | _, _ => none

/-- Response body of the non-streaming endpoint (`src/main.py` line 170):
`{"response": ..., "thread_id": ...}`. -/
structure ChatResponse where
  response : String
  thread_id : String
deriving DecidableEq

def lastContent (messages : List Msg) : String :=
  match messages.getLast? with
  | some m => m.content
  | none => ""

/-- The non-streaming `POST /conversation` endpoint (`src/main.py` lines
146–170): run the graph on the thread's history plus the new user message,
persist, and answer with the content of the last message plus the thread id. -/
def chat_endpoint (llm : LLM) (catalog : List String) (tools : Tools)
    (store : Store) (req : ChatRequest) : Except GraphError ChatResponse × Store :=
  let r := ainvoke llm catalog tools (getThread store req.thread_id) req.message
  let store' := putThread store req.thread_id r.1.messages
  match r.2 with
  | some e => (Except.error e, store')
  | none => (Except.ok ⟨lastContent r.1.messages, req.thread_id⟩, store')

/-- The generator of the streaming `POST /conversation/stream` endpoint
(`src/main.py` lines 183–208): over the event stream, yield the content of
each nonempty chat-model chunk; the `on_tool_call` arm would yield a marker
text, and the `on_graph_end` arm yields nothing. -/
def stream_generator (events : List StreamEvent) : List String :=
  events.filterMap (fun e =>
    if e.kind = "on_chat_model_stream" then
      if e.chunkContent = "" then none else some e.chunkContent
    else if e.kind = "on_tool_call" then
      some ("\n[Memanggil tool: " ++ e.toolName ++ "...]\n")
    else none)

/-- The streaming endpoint: the text increments its `StreamingResponse` body
yields, plus the store as persisted by the checkpointer. -/
def chat_stream_endpoint (llm : LLM) (catalog : List String) (tools : Tools)
    (store : Store) (req : ChatRequest) : List String × Store :=
  let r := ainvoke llm catalog tools (getThread store req.thread_id) req.message
  (stream_generator r.1.events, putThread store req.thread_id r.1.messages)

/-- What `lifespan` (`src/main.py` lines 61–133) builds: the fetched tool set
wired into `ToolNode`, and the tool names advertised to the model by
`model.bind_tools(mcp_tools)`. -/
structure Engine where
  tools : Tools
  advertised : List String

/-- The startup phase of `lifespan`: `mcp_tools` starts `[]`; the one-time
fetch either succeeds and replaces it or raises, in which case the exception is
caught, `mcp_tools` stays `[]`, and the graph is still built and the server
still starts. -/
def lifespan (fetched : Except String Tools) : Engine :=
  match fetched with
  | Except.ok mcp_tools => ⟨mcp_tools, mcp_tools.map (fun t => t.1)⟩
  | Except.error _ => ⟨[], []⟩

/-! ### Embedding of `src/assistant.py` (MindsDBService) -/

/-- One element of the completion payload
(`[{'question': question, 'answer': None}]`). -/
structure QAItem where
  question : String
  answer : Option String
deriving DecidableEq

/-- A completion returned by a MindsDB agent; the answer is read from its
`content` field. -/
structure Completion where
  content : String
deriving DecidableEq

/-- A MindsDB agent handle: `completion` may raise (modelled as `Except.error`
carrying the exception text). -/
structure MindsAgent where
  completion : List QAItem → Except String Completion

/-- A connected MindsDB server handle: `agents.get` may raise. -/
structure MindsServer where
  agents_get : String → Except String MindsAgent

/-- `MindsDBService.__init__` (`src/assistant.py` lines 14–24): a failed
`mindsdb_sdk.connect` is caught and leaves `self.server = None`. -/
def mindsdb_init (connect : Except String MindsServer) : Option MindsServer :=
  match connect with
  | Except.ok s => some s
  | Except.error _ => none

/-- The body of the `try` block of `get_answer_from_agent` (`src/assistant.py`
lines 40–53): agent lookup, completion on the one-element payload, read of the
`content` field; an `Except.error` is an exception escaping the block. -/
def agentLookupAndComplete (server : MindsServer) (agent_name question : String) :
    Except String String := do
  let agent ← server.agents_get agent_name
  let completion ← agent.completion [⟨question, none⟩]
  return completion.content

/-- `MindsDBService.get_answer_from_agent` (`src/assistant.py` lines 26–56):
guard on `self.server`, then the `try` body with every exception caught and
rendered as an error string. -/
def get_answer_from_agent (server : Option MindsServer) (agent_name question : String) :
    String :=
  match server with
  | none => "Error: Tidak terhubung ke MindsDB Server."
  | some s =>
    match agentLookupAndComplete s agent_name question with
    | Except.ok answer => answer
    | Except.error e => "Terjadi kesalahan: " ++ e

/-! ### Embedding of `src/model.py` -/

/-- The `{question, answer}` response schema declared in `src/model.py`
(lines 9–11); it is not referenced by either endpoint in `src/main.py`. -/
structure QuestionAnswer where
  question : String
  answer : String
deriving DecidableEq

/-! ### Theorems -/

/-- C10 — `get_answer_from_agent` is total on its embedding: with no connected
server it is the fixed connection-error string; with a server, an exception
anywhere in lookup/completion yields the caught-error string, and a successful
completion yields its content.  In no case does an exception escape. -/
theorem c10_get_answer_never_raises (server : Option MindsServer)
    (agent_name question : String) :
    (server = none →
      get_answer_from_agent server agent_name question =
        "Error: Tidak terhubung ke MindsDB Server.") ∧
    (∀ s, server = some s →
      (∀ e, agentLookupAndComplete s agent_name question = Except.error e →
        get_answer_from_agent server agent_name question = "Terjadi kesalahan: " ++ e) ∧
      (∀ r, agentLookupAndComplete s agent_name question = Except.ok r →
        get_answer_from_agent server agent_name question = r)) := by
  refine ⟨fun h => by subst h; rfl, fun s hs => ⟨fun e he => ?_, fun r hr => ?_⟩⟩
  · subst hs; simp [get_answer_from_agent, he]
  · subst hs; simp [get_answer_from_agent, hr]

/-- A backend whose agent lookup raises, for the C10 witness. -/
def failingMindsServer : MindsServer :=
  ⟨fun _ => Except.error "connection refused"⟩

/-- Witness for C10 at concrete inputs: a missing server and a raising lookup
both produce error strings. -/
theorem c10_witness :
    get_answer_from_agent none "ease_agent" "data apa yang bisa diambil?" =
      "Error: Tidak terhubung ke MindsDB Server." ∧
    get_answer_from_agent (some failingMindsServer) "ease_agent"
        "data apa yang bisa diambil?" =
      "Terjadi kesalahan: " ++ "connection refused" :=
  ⟨(c10_get_answer_never_raises none "ease_agent" "data apa yang bisa diambil?").1 rfl,
   ((c10_get_answer_never_raises (some failingMindsServer) "ease_agent"
        "data apa yang bisa diambil?").2 failingMindsServer rfl).1
      "connection refused" rfl⟩

/-- C9 counterexample — the conversation identifier is not optional: a request
carrying only the question text is rejected by validation (`thread_id` is a
required field of `ChatRequest`), so the operation does not accept
`{question text, no conversation id}`. -/
theorem c9_counterexample : parseChatRequest (some "halo") none = none := rfl

/-- C9 (amended) — the ask-a-question operation accepts `{message text,
required thread_id}` (a body missing either field is rejected) and answers
`{response, thread_id}` where `response` is the final answer of the turn run on
that thread; the streaming variant emits the text increments of the same run. -/
theorem c9_endpoint_contract (m t : String) (llm : LLM) (catalog : List String)
    (tools : Tools) (store : Store) :
    parseChatRequest (some m) (some t) = some ⟨m, t⟩ ∧
    parseChatRequest (some m) none = none ∧
    parseChatRequest none (some t) = none ∧
    (∀ resp store2,
      chat_endpoint llm catalog tools store ⟨m, t⟩ = (Except.ok resp, store2) →
      resp.thread_id = t ∧
      resp.response =
        lastContent (ainvoke llm catalog tools (getThread store t) m).1.messages) ∧
    (chat_stream_endpoint llm catalog tools store ⟨m, t⟩).1 =
      stream_generator (ainvoke llm catalog tools (getThread store t) m).1.events := by
  refine ⟨rfl, rfl, rfl, fun resp store2 h => ?_, rfl⟩
  unfold chat_endpoint at h
  cases herr : (ainvoke llm catalog tools (getThread store t) m).2 with
  | none =>
    simp only [herr] at h
    injection h with h1 h2
    injection h1 with h1
    subst h1
    exact ⟨rfl, rfl⟩
  | some e =>
    simp only [herr] at h
    injection h with h1 h2
    exact absurd h1 (by simp)

/-- Witness for C9's amended contract at concrete inputs. -/
theorem c9_witness :
    parseChatRequest (some "halo") (some "t1") = some ⟨"halo", "t1"⟩ ∧
    parseChatRequest none (some "t1") = none :=
  ⟨(c9_endpoint_contract "halo" "t1" (fun _ _ => ⟨[], []⟩) [] [] []).1,
   (c9_endpoint_contract "halo" "t1" (fun _ _ => ⟨[], []⟩) [] [] []).2.2.1⟩

/-- `tools_condition` after appending one message routes on that message's tool
calls. -/
theorem tools_condition_concat (xs : List Msg) (m : Msg) :
    tools_condition (xs ++ [m]) =
      if m.tool_calls = [] then Route.endRoute else Route.tools := by
  simp [tools_condition, List.getLast?_concat]

/-- A chatbot step whose model response requests no tool calls ends the graph
after that single model invocation, appending only the assistant message. -/
theorem runFrom_no_toolcalls (llm : LLM) (catalog : List String) (tools : Tools)
    (n : Nat) (s : RunState)
    (H : (llm catalog (buildModelInput s.messages)).tool_calls = []) :
    runFrom llm catalog tools (n + 1) Node.chatbot s =
      (⟨s.messages ++ [aiMsgOf (llm catalog (buildModelInput s.messages))],
        s.modelInputs ++ [buildModelInput s.messages],
        s.events ++ (llm catalog (buildModelInput s.messages)).chunks.map chatChunkEvent⟩,
       none) := by
  simp [runFrom, tools_condition_concat, aiMsgOf, H]

/-- A chatbot step whose model response requests tool calls routes to the
`tools` node after appending the assistant message. -/
theorem runFrom_chatbot_step (llm : LLM) (catalog : List String) (tools : Tools)
    (n : Nat) (s : RunState)
    (H : (llm catalog (buildModelInput s.messages)).tool_calls ≠ []) :
    runFrom llm catalog tools (n + 1) Node.chatbot s =
      runFrom llm catalog tools n Node.tools
        ⟨s.messages ++ [aiMsgOf (llm catalog (buildModelInput s.messages))],
         s.modelInputs ++ [buildModelInput s.messages],
         s.events ++ (llm catalog (buildModelInput s.messages)).chunks.map chatChunkEvent⟩ := by
  simp only [runFrom]
  rw [tools_condition_concat]
  simp only [aiMsgOf]
  rw [if_neg H]

/-- A tools step appends one tool message per tool call of the last message and
routes back to `chatbot`. -/
theorem runFrom_tools_step (llm : LLM) (catalog : List String) (tools : Tools)
    (n : Nat) (s : RunState) (last : Msg)
    (Hl : s.messages.getLast? = some last) :
    runFrom llm catalog tools (n + 1) Node.tools s =
      runFrom llm catalog tools n Node.chatbot
        ⟨s.messages ++ last.tool_calls.map (execToolCall tools),
         s.modelInputs,
         s.events ++ toolEventsOf last.tool_calls⟩ := by
  simp only [runFrom, ToolNode]
  rw [Hl]

/-- Model invocations chargeable to a pending node within a given super-step
budget: a budget of `n` steps pending at `chatbot` allows at most `(n+1)/2`
model invocations, pending at `tools` at most `n/2`. -/
def stepBound : Node → Nat → Nat
  | Node.chatbot, n => (n + 1) / 2
  | Node.tools, n => n / 2

/-- The graph execution performs at most `stepBound` model invocations. -/
theorem runFrom_modelCalls_le (llm : LLM) (catalog : List String) (tools : Tools) :
    ∀ (n : Nat) (node : Node) (s : RunState),
      (runFrom llm catalog tools n node s).1.modelInputs.length ≤
        s.modelInputs.length + stepBound node n := by
  intro n
  induction n with
  | zero => intro node s; cases node <;> simp [runFrom, stepBound]
  | succ n ih =>
    intro node s
    cases node with
    | chatbot =>
      simp only [runFrom]
      split
      · simp [stepBound]
        omega
      · refine le_trans (ih Node.tools _) ?_
        simp [stepBound]
        omega
    | tools =>
      simp only [runFrom]
      refine le_trans (ih Node.chatbot _) ?_
      simp [stepBound]

/-- Under a model that requests tool calls on every invocation, the graph
aborts with `GraphRecursionError` and performs exactly `stepBound` model
invocations. -/
theorem runFrom_alwaysTool (llm : LLM) (catalog : List String) (tools : Tools)
    (H : ∀ cat msgs, (llm cat msgs).tool_calls ≠ []) :
    ∀ (n : Nat) (node : Node) (s : RunState),
      (runFrom llm catalog tools n node s).2 = some GraphError.recursionLimit ∧
      (runFrom llm catalog tools n node s).1.modelInputs.length =
        s.modelInputs.length + stepBound node n := by
  intro n
  induction n with
  | zero => intro node s; cases node <;> simp [runFrom, stepBound]
  | succ n ih =>
    intro node s
    cases node with
    | chatbot =>
      simp only [runFrom]
      split
      · next h =>
          rw [tools_condition_concat] at h
          simp only [aiMsgOf] at h
          rw [if_neg (H catalog (buildModelInput s.messages))] at h
          simp at h
      · refine ⟨(ih Node.tools _).1, ?_⟩
        rw [(ih Node.tools _).2]
        simp [stepBound]
        omega
    | tools =>
      simp only [runFrom]
      refine ⟨(ih Node.chatbot _).1, ?_⟩
      rw [(ih Node.chatbot _).2]
      simp [stepBound]

/-- A model backend that requests a tool call on every invocation, for C2. -/
def llmAlwaysTool : LLM := fun _ _ =>
  ⟨[], [⟨"query", "call_1", "SELECT 1"⟩]⟩

/-- C2 counterexample — a model that requests a tool call on every invocation
does abort the turn, but after its 13th consecutive tool-call response, not its
26th: with the default recursion limit of 25 graph super-steps, the 13th model
invocation exhausts the budget (13 chatbot steps + 12 tools steps = 25), so the
model is never invoked 26 times. -/
theorem c2_counterexample :
    (ainvoke llmAlwaysTool [] [] [] "hai").2 = some GraphError.recursionLimit ∧
    (ainvoke llmAlwaysTool [] [] [] "hai").1.modelInputs.length = 13 ∧
    ¬(ainvoke llmAlwaysTool [] [] [] "hai").1.modelInputs.length = 26 := by
  refine ⟨rfl, rfl, fun h => ?_⟩
  rw [show (ainvoke llmAlwaysTool [] [] [] "hai").1.modelInputs.length = 13 from rfl] at h
  simp at h

/-- C2 (amended) — the turn loop is bounded: langgraph's default recursion
limit of 25 super-steps allows at most 13 model invocations per turn, and a
model that requests tool calls on every invocation makes the turn abort with
`GraphRecursionError` at its 13th consecutive tool-call response (not the
26th), rather than looping indefinitely. -/
theorem c2_recursion_bound (llm : LLM) (catalog : List String) (tools : Tools)
    (history : List Msg) (userText : String) :
    (ainvoke llm catalog tools history userText).1.modelInputs.length ≤ 13 ∧
    ((∀ cat msgs, (llm cat msgs).tool_calls ≠ []) →
      (ainvoke llm catalog tools history userText).2 = some GraphError.recursionLimit ∧
      (ainvoke llm catalog tools history userText).1.modelInputs.length = 13) := by
  constructor
  · have h := runFrom_modelCalls_le llm catalog tools recursion_limit Node.chatbot
      ⟨history ++ [HumanMessage userText], [], []⟩
    simpa [ainvoke, stepBound, recursion_limit] using h
  · intro H
    have h := runFrom_alwaysTool llm catalog tools H recursion_limit Node.chatbot
      ⟨history ++ [HumanMessage userText], [], []⟩
    simpa [ainvoke, stepBound, recursion_limit] using h

/-- Witness for C2's amended bound: the always-tool-calling backend hits the
abort at exactly 13 model invocations. -/
theorem c2_witness :
    (ainvoke llmAlwaysTool ["query"] [] [] "hai").2 = some GraphError.recursionLimit ∧
    (ainvoke llmAlwaysTool ["query"] [] [] "hai").1.modelInputs.length = 13 :=
  (c2_recursion_bound llmAlwaysTool ["query"] [] [] "hai").2
    (fun _ _ => by simp [llmAlwaysTool])

/-- C1 — a turn whose first model response contains zero tool calls makes
exactly one model invocation, appends exactly the assistant message after the
user message, ends the graph without error, and the endpoint returns that
response's content as the final answer. -/
theorem c1_zero_toolcalls (llm : LLM) (catalog : List String) (tools : Tools)
    (store : Store) (req : ChatRequest) (response : ModelResponse)
    (Hr : response =
      llm catalog (buildModelInput (getThread store req.thread_id ++ [HumanMessage req.message])))
    (H : response.tool_calls = []) :
    (ainvoke llm catalog tools (getThread store req.thread_id) req.message).1.modelInputs.length = 1 ∧
    (ainvoke llm catalog tools (getThread store req.thread_id) req.message).1.messages =
      getThread store req.thread_id ++ [HumanMessage req.message, aiMsgOf response] ∧
    (ainvoke llm catalog tools (getThread store req.thread_id) req.message).2 = none ∧
    (chat_endpoint llm catalog tools store req).1 =
      Except.ok ⟨response.content, req.thread_id⟩ := by
  subst Hr
  have key := runFrom_no_toolcalls llm catalog tools 24
    ⟨getThread store req.thread_id ++ [HumanMessage req.message], [], []⟩ H
  have ha : ainvoke llm catalog tools (getThread store req.thread_id) req.message =
      runFrom llm catalog tools (24 + 1) Node.chatbot
        ⟨getThread store req.thread_id ++ [HumanMessage req.message], [], []⟩ := rfl
  rw [ha, key]
  refine ⟨rfl, by simp, rfl, ?_⟩
  unfold chat_endpoint
  rw [ha, key]
  simp [lastContent, List.getLast?_concat, aiMsgOf, ModelResponse.content]

/-- A model backend that answers directly with no tool calls, for witnesses. -/
def llmPlain : LLM := fun _ _ => ⟨["ha", "lo"], []⟩

/-- Witness for C1 at a concrete backend: one model invocation, answer
returned. -/
theorem c1_witness :
    (ainvoke llmPlain [] [] (getThread [] "t1") "hai").1.modelInputs.length = 1 ∧
    (ainvoke llmPlain [] [] (getThread [] "t1") "hai").1.messages =
      getThread [] "t1" ++ [HumanMessage "hai", aiMsgOf ⟨["ha", "lo"], []⟩] ∧
    (ainvoke llmPlain [] [] (getThread [] "t1") "hai").2 = none ∧
    (chat_endpoint llmPlain [] [] [] ⟨"hai", "t1"⟩).1 =
      Except.ok ⟨ModelResponse.content ⟨["ha", "lo"], []⟩, "t1"⟩ :=
  c1_zero_toolcalls llmPlain [] [] [] ⟨"hai", "t1"⟩ ⟨["ha", "lo"], []⟩ rfl rfl

/-- C7 — an unseen `thread_id` is never an error: its history reads back as
the empty conversation (no pre-seeded content), and both endpoints behave
exactly as if the conversation already existed with empty history. -/
theorem c7_unseen_thread (llm : LLM) (catalog : List String) (tools : Tools)
    (store : Store) (req : ChatRequest)
    (H : store.lookup req.thread_id = none) :
    getThread store req.thread_id = [] ∧
    (chat_endpoint llm catalog tools store req).1 =
      (chat_endpoint llm catalog tools (putThread store req.thread_id []) req).1 ∧
    (chat_stream_endpoint llm catalog tools store req).1 =
      (chat_stream_endpoint llm catalog tools (putThread store req.thread_id []) req).1 := by
  have hg : getThread store req.thread_id = [] := by simp [getThread, H]
  have hg2 : getThread (putThread store req.thread_id []) req.thread_id = [] := by
    simp [getThread, putThread]
  refine ⟨hg, ?_, ?_⟩
  · simp only [chat_endpoint, hg, hg2]
    cases (ainvoke llm catalog tools [] req.message).2 <;> rfl
  · simp only [chat_stream_endpoint, hg, hg2]

/-- Witness for C7: a fresh store with an unseen thread id. -/
theorem c7_witness :
    getThread [] "t1" = [] ∧
    (chat_endpoint llmPlain [] [] [] ⟨"hai", "t1"⟩).1 =
      (chat_endpoint llmPlain [] [] (putThread [] "t1" []) ⟨"hai", "t1"⟩).1 :=
  ⟨(c7_unseen_thread llmPlain [] [] [] ⟨"hai", "t1"⟩ rfl).1,
   (c7_unseen_thread llmPlain [] [] [] ⟨"hai", "t1"⟩ rfl).2.1⟩

/-- A model backend that only requests tools present in the advertised
catalog. -/
def RespectsCatalog (llm : LLM) : Prop :=
  ∀ cat msgs tc, tc ∈ (llm cat msgs).tool_calls → tc.name ∈ cat

/-- C8 — a failed startup tool fetch does not crash the engine: the graph is
built over an empty tool set, nothing is advertised to the model, and any
catalog-respecting backend then completes every turn in a single model
invocation with no error. -/
theorem c8_degraded_mode (e : String) :
    (lifespan (Except.error e)).tools = [] ∧
    (lifespan (Except.error e)).advertised = [] ∧
    (∀ llm : LLM, RespectsCatalog llm → ∀ (history : List Msg) (userText : String),
      (ainvoke llm (lifespan (Except.error e)).advertised
          (lifespan (Except.error e)).tools history userText).2 = none ∧
      (ainvoke llm (lifespan (Except.error e)).advertised
          (lifespan (Except.error e)).tools history userText).1.modelInputs.length = 1) := by
  refine ⟨rfl, rfl, fun llm Hllm history userText => ?_⟩
  have H : (llm [] (buildModelInput (history ++ [HumanMessage userText]))).tool_calls = [] := by
    cases h : (llm [] (buildModelInput (history ++ [HumanMessage userText]))).tool_calls with
    | nil => rfl
    | cons tc rest =>
      exact absurd (Hllm [] _ tc (h ▸ List.mem_cons_self tc rest)) (by simp)
  have key := runFrom_no_toolcalls llm [] [] 24
    ⟨history ++ [HumanMessage userText], [], []⟩ H
  have ha : ainvoke llm [] [] history userText =
      runFrom llm [] [] (24 + 1) Node.chatbot
        ⟨history ++ [HumanMessage userText], [], []⟩ := rfl
  simp only [lifespan]
  rw [ha, key]
  exact ⟨rfl, rfl⟩

/-- Witness for C8: a concrete failed fetch leaves no tools and a direct
answer still goes through. -/
theorem c8_witness :
    (lifespan (Except.error "GAGAL terhubung ke MCP")).tools = [] ∧
    (ainvoke llmPlain (lifespan (Except.error "GAGAL terhubung ke MCP")).advertised
        (lifespan (Except.error "GAGAL terhubung ke MCP")).tools [] "hai").2 = none :=
  ⟨(c8_degraded_mode "GAGAL terhubung ke MCP").1,
   ((c8_degraded_mode "GAGAL terhubung ke MCP").2.2 llmPlain
      (fun _ _ tc h => absurd h (by simp [llmPlain])) [] "hai").1⟩

/-- No message in the list carries the system role. -/
def noSystem (msgs : List Msg) : Prop := ∀ m ∈ msgs, m.role ≠ Role.system

theorem execToolCall_role (tools : Tools) (tc : ToolCall) :
    (execToolCall tools tc).role = Role.tool := by
  unfold execToolCall
  cases tools.lookup tc.name with
  | none => rfl
  | some f => cases hf : f tc.args <;> simp [hf, ToolMessage]

theorem ToolNode_mem_role (tools : Tools) (msgs : List Msg) (m : Msg)
    (h : m ∈ ToolNode tools msgs) : m.role = Role.tool := by
  unfold ToolNode at h
  cases hl : msgs.getLast? with
  | none => rw [hl] at h; simp at h
  | some last =>
    rw [hl] at h
    obtain ⟨tc, _, rfl⟩ := List.mem_map.1 h
    exact execToolCall_role tools tc

/-- Invariant of the graph execution: the persisted history never contains a
system message, and every recorded model input is the fixed system instruction
prepended to the history as persisted at the moment of that invocation (hence
to a system-free list that extends to the final history). -/
theorem runFrom_system_isolation (llm : LLM) (catalog : List String) (tools : Tools) :
    ∀ (n : Nat) (node : Node) (s : RunState),
      noSystem s.messages →
      (∀ inp ∈ s.modelInputs, ∃ pre, inp = buildModelInput pre ∧ noSystem pre ∧
        ∃ suf, s.messages = pre ++ suf) →
      noSystem (runFrom llm catalog tools n node s).1.messages ∧
      (∀ inp ∈ (runFrom llm catalog tools n node s).1.modelInputs,
        ∃ pre, inp = buildModelInput pre ∧ noSystem pre ∧
          ∃ suf, (runFrom llm catalog tools n node s).1.messages = pre ++ suf) := by
  intro n
  induction n with
  | zero => intro node s h1 h2; cases node <;> exact ⟨h1, h2⟩
  | succ n ih =>
    intro node s h1 h2
    cases node with
    | chatbot =>
      have h1' : noSystem (s.messages ++
          [aiMsgOf (llm catalog (buildModelInput s.messages))]) := by
        intro m hm
        rcases List.mem_append.1 hm with h | h
        · exact h1 m h
        · rw [List.mem_singleton.1 h]; simp [aiMsgOf]
      have h2' : ∀ inp ∈ s.modelInputs ++ [buildModelInput s.messages],
          ∃ pre, inp = buildModelInput pre ∧ noSystem pre ∧
            ∃ suf, s.messages ++
              [aiMsgOf (llm catalog (buildModelInput s.messages))] = pre ++ suf := by
        intro inp hinp
        rcases List.mem_append.1 hinp with h | h
        · obtain ⟨pre, hpre, hns, suf, hsuf⟩ := h2 inp h
          exact ⟨pre, hpre, hns, suf ++ [aiMsgOf (llm catalog (buildModelInput s.messages))],
            by rw [hsuf, List.append_assoc]⟩
        · rw [List.mem_singleton.1 h]
          exact ⟨s.messages, rfl, h1,
            [aiMsgOf (llm catalog (buildModelInput s.messages))], rfl⟩
      simp only [runFrom]
      split
      · exact ⟨h1', h2'⟩
      · exact ih Node.tools _ h1' h2'
    | tools =>
      simp only [runFrom]
      refine ih Node.chatbot _ ?_ ?_
      · intro m hm
        rcases List.mem_append.1 hm with h | h
        · exact h1 m h
        · rw [ToolNode_mem_role tools s.messages m h]
          simp
      · intro inp hinp
        obtain ⟨pre, hpre, hns, suf, hsuf⟩ := h2 inp hinp
        exact ⟨pre, hpre, hns, suf ++ ToolNode tools s.messages,
          by rw [hsuf, List.append_assoc]⟩

/-- The messages the engine persists as the follow-up of one model invocation
with input `inp`: the assistant message built from the (deterministic)
response to `inp`, followed by the tool messages answering that response's
tool calls, in order. -/
def followUp (llm : LLM) (catalog : List String) (tools : Tools) (inp : List Msg) : List Msg :=
  aiMsgOf (llm catalog inp) :: (llm catalog inp).tool_calls.map (execToolCall tools)

/-- The recorded model inputs are chained: every input after the first is the
system message prepended to the previous input's history extended by exactly
the messages persisted after that previous invocation — nothing dropped,
reordered, or stale between invocations. -/
def inputsChained (llm : LLM) (catalog : List String) (tools : Tools) :
    List (List Msg) → Prop
  | [] => True
  | [_] => True
  | inp :: inp2 :: rest =>
    inp2 = buildModelInput (inp.tail ++ followUp llm catalog tools inp) ∧
    inputsChained llm catalog tools (inp2 :: rest)

theorem inputsChained_concat (llm : LLM) (catalog : List String) (tools : Tools) :
    ∀ (xs : List (List Msg)) (a : List Msg),
      inputsChained llm catalog tools xs →
      (∀ inp, xs.getLast? = some inp →
        a = buildModelInput (inp.tail ++ followUp llm catalog tools inp)) →
      inputsChained llm catalog tools (xs ++ [a]) := by
  intro xs
  induction xs with
  | nil => intro a _ _; trivial
  | cons x rest ih =>
    intro a hch hlast
    cases rest with
    | nil =>
      refine ⟨hlast x rfl, ?_⟩
      trivial
    | cons y rest2 =>
      exact ⟨hch.1, ih a hch.2
        (fun inp h => hlast inp (by rw [List.getLast?_cons_cons]; exact h))⟩

/-- Step-wise pinning of the recorded model inputs: from a state whose last
recorded input reflects the current history in the node-appropriate phase,
every recorded input keeps the shape `system instruction :: its history`,
consecutive inputs are chained by exactly the persisted follow-up messages,
the record only grows, and the final history equals the last input's history
plus that invocation's persisted messages (complete, or cut at the assistant
message when the run ends or aborts before the tools step). -/
theorem runFrom_inputs_pinned (llm : LLM) (catalog : List String) (tools : Tools) :
    ∀ (n : Nat) (node : Node) (s : RunState) (inp : List Msg),
      (∀ i ∈ s.modelInputs, i = buildModelInput i.tail) →
      inputsChained llm catalog tools s.modelInputs →
      s.modelInputs.getLast? = some inp →
      (node = Node.chatbot → s.messages = inp.tail ++ followUp llm catalog tools inp) →
      (node = Node.tools → s.messages = inp.tail ++ [aiMsgOf (llm catalog inp)]) →
      (∀ i ∈ (runFrom llm catalog tools n node s).1.modelInputs,
        i = buildModelInput i.tail) ∧
      inputsChained llm catalog tools (runFrom llm catalog tools n node s).1.modelInputs ∧
      (∃ new, (runFrom llm catalog tools n node s).1.modelInputs = s.modelInputs ++ new) ∧
      (∃ last, (runFrom llm catalog tools n node s).1.modelInputs.getLast? = some last ∧
        ((runFrom llm catalog tools n node s).2 = none →
          (runFrom llm catalog tools n node s).1.messages =
            last.tail ++ [aiMsgOf (llm catalog last)] ∧
          (llm catalog last).tool_calls = []) ∧
        ((runFrom llm catalog tools n node s).2 ≠ none →
          (runFrom llm catalog tools n node s).1.messages =
            last.tail ++ [aiMsgOf (llm catalog last)] ∨
          (runFrom llm catalog tools n node s).1.messages =
            last.tail ++ followUp llm catalog tools last)) := by
  intro n
  induction n with
  | zero =>
    intro node s inp hW hCH hlast hpc hpt
    refine ⟨hW, hCH, ⟨[], by simp [runFrom]⟩, inp, hlast, ?_, ?_⟩
    · intro h; exact absurd h (by simp [runFrom])
    · intro _
      cases node with
      | chatbot => exact Or.inr (hpc rfl)
      | tools => exact Or.inl (hpt rfl)
  | succ n ih =>
    intro node s inp hW hCH hlast hpc hpt
    cases node with
    | chatbot =>
      have hmsg := hpc rfl
      have hW' : ∀ i ∈ s.modelInputs ++ [buildModelInput s.messages],
          i = buildModelInput i.tail := by
        intro i hi
        rcases List.mem_append.1 hi with h | h
        · exact hW i h
        · rw [List.mem_singleton.1 h]; rfl
      have hCH' : inputsChained llm catalog tools
          (s.modelInputs ++ [buildModelInput s.messages]) := by
        refine inputsChained_concat llm catalog tools s.modelInputs _ hCH ?_
        intro j hj
        rw [hlast] at hj
        injection hj with hj
        subst hj
        rw [hmsg]
      simp only [runFrom]
      split
      · next hr =>
        have hnil : (llm catalog (buildModelInput s.messages)).tool_calls = [] := by
          rw [tools_condition_concat] at hr
          simp only [aiMsgOf] at hr
          by_cases hc : (llm catalog (buildModelInput s.messages)).tool_calls = []
          · exact hc
          · rw [if_neg hc] at hr; simp at hr
        refine ⟨hW', hCH', ⟨[buildModelInput s.messages], rfl⟩,
          buildModelInput s.messages, List.getLast?_concat _,
          fun _ => ⟨rfl, hnil⟩, fun hne => absurd rfl hne⟩
      · next hr =>
        have post := ih Node.tools
          ⟨s.messages ++ [aiMsgOf (llm catalog (buildModelInput s.messages))],
           s.modelInputs ++ [buildModelInput s.messages],
           s.events ++ (llm catalog (buildModelInput s.messages)).chunks.map chatChunkEvent⟩
          (buildModelInput s.messages) hW' hCH' (List.getLast?_concat _)
          (fun h => by cases h) (fun _ => rfl)
        obtain ⟨pW, pCH, ⟨new, pEXT⟩, plast⟩ := post
        exact ⟨pW, pCH, ⟨[buildModelInput s.messages] ++ new, by rw [pEXT]; simp⟩, plast⟩
    | tools =>
      have hmsg := hpt rfl
      have hlastmsg : s.messages.getLast? = some (aiMsgOf (llm catalog inp)) := by
        rw [hmsg]; exact List.getLast?_concat _
      have hmsg' : s.messages ++ ToolNode tools s.messages =
          inp.tail ++ followUp llm catalog tools inp := by
        unfold ToolNode
        rw [hlastmsg, hmsg, List.append_assoc]
        rfl
      simp only [runFrom]
      exact ih Node.chatbot _ inp hW hCH hlast (fun _ => hmsg') (fun h => by cases h)

/-- C3 — every model invocation of a turn receives exactly the fixed system
instruction prepended to the full conversation history persisted at that
invocation, and the instruction is never persisted.  The inputs are pinned
completely: the first input's history is exactly the prior history plus the
new user message; each later input's history is the previous one plus
precisely the assistant and tool-result messages persisted in between
(`inputsChained`); every input is the system message consed onto its history,
which is system-free and extends to the final history; and the final
persisted history is the last input's history plus that invocation's
persisted messages.  No stale, truncated, or system-polluted input can
satisfy this. -/
theorem c3_system_prompt_isolation (llm : LLM) (catalog : List String) (tools : Tools)
    (history : List Msg) (userText : String)
    (H : noSystem history) :
    noSystem (ainvoke llm catalog tools history userText).1.messages ∧
    (∀ inp ∈ (ainvoke llm catalog tools history userText).1.modelInputs,
      inp = SystemMessage SYSTEM_PROMPT :: inp.tail ∧ noSystem inp.tail ∧
        ∃ suf, (ainvoke llm catalog tools history userText).1.messages = inp.tail ++ suf) ∧
    (ainvoke llm catalog tools history userText).1.modelInputs.head? =
      some (SystemMessage SYSTEM_PROMPT :: (history ++ [HumanMessage userText])) ∧
    inputsChained llm catalog tools
      (ainvoke llm catalog tools history userText).1.modelInputs ∧
    (∃ last, (ainvoke llm catalog tools history userText).1.modelInputs.getLast? =
        some last ∧
      ((ainvoke llm catalog tools history userText).2 = none →
        (ainvoke llm catalog tools history userText).1.messages =
          last.tail ++ [aiMsgOf (llm catalog last)] ∧
        (llm catalog last).tool_calls = []) ∧
      ((ainvoke llm catalog tools history userText).2 ≠ none →
        (ainvoke llm catalog tools history userText).1.messages =
          last.tail ++ [aiMsgOf (llm catalog last)] ∨
        (ainvoke llm catalog tools history userText).1.messages =
          last.tail ++ followUp llm catalog tools last)) := by
  have h1 : noSystem (history ++ [HumanMessage userText]) := by
    intro m hm
    rcases List.mem_append.1 hm with h | h
    · exact H m h
    · rw [List.mem_singleton.1 h]; simp [HumanMessage]
  have hiso := runFrom_system_isolation llm catalog tools recursion_limit Node.chatbot
    ⟨history ++ [HumanMessage userText], [], []⟩ h1 (by intro inp hinp; simp at hinp)
  have hc2 : ∀ inp ∈ (ainvoke llm catalog tools history userText).1.modelInputs,
      inp = SystemMessage SYSTEM_PROMPT :: inp.tail ∧ noSystem inp.tail ∧
        ∃ suf, (ainvoke llm catalog tools history userText).1.messages =
          inp.tail ++ suf := by
    intro inp hm
    obtain ⟨pre, hpre, hns, suf, hsuf⟩ := hiso.2 inp hm
    have ht : inp.tail = pre := by rw [hpre]; rfl
    rw [ht]
    exact ⟨hpre, hns, suf, hsuf⟩
  by_cases h0 :
      (llm catalog (buildModelInput (history ++ [HumanMessage userText]))).tool_calls = []
  · have key := runFrom_no_toolcalls llm catalog tools 24
      ⟨history ++ [HumanMessage userText], [], []⟩ h0
    have ha : ainvoke llm catalog tools history userText =
        runFrom llm catalog tools (24 + 1) Node.chatbot
          ⟨history ++ [HumanMessage userText], [], []⟩ := rfl
    refine ⟨hiso.1, hc2, ?_, ?_, ?_⟩
    · rw [ha, key]; rfl
    · rw [ha, key]; trivial
    · rw [ha, key]
      exact ⟨buildModelInput (history ++ [HumanMessage userText]),
        List.getLast?_concat _, fun _ => ⟨rfl, h0⟩, fun hne => absurd rfl hne⟩
  · have step1 := runFrom_chatbot_step llm catalog tools 24
      ⟨history ++ [HumanMessage userText], [], []⟩ h0
    have ha : ainvoke llm catalog tools history userText =
        runFrom llm catalog tools 24 Node.tools
          ⟨(history ++ [HumanMessage userText]) ++
             [aiMsgOf (llm catalog (buildModelInput (history ++ [HumanMessage userText])))],
           [buildModelInput (history ++ [HumanMessage userText])],
           (llm catalog (buildModelInput (history ++ [HumanMessage userText]))).chunks.map
             chatChunkEvent⟩ := step1
    have post := runFrom_inputs_pinned llm catalog tools 24 Node.tools
      ⟨(history ++ [HumanMessage userText]) ++
         [aiMsgOf (llm catalog (buildModelInput (history ++ [HumanMessage userText])))],
       [buildModelInput (history ++ [HumanMessage userText])],
       (llm catalog (buildModelInput (history ++ [HumanMessage userText]))).chunks.map
         chatChunkEvent⟩
      (buildModelInput (history ++ [HumanMessage userText]))
      (by intro i hi; rw [List.mem_singleton.1 hi]; rfl)
      trivial rfl (fun h => by cases h) (fun _ => rfl)
    obtain ⟨pW, pCH, ⟨new, pEXT⟩, plast⟩ := post
    refine ⟨hiso.1, hc2, ?_, ?_, ?_⟩
    · rw [ha, pEXT]; rfl
    · rw [ha]; exact pCH
    · rw [ha]; exact plast

/-- Witness for C3: after a concrete turn on empty history no system message is
persisted. -/
theorem c3_witness :
    noSystem (ainvoke llmPlain [] [] [] "hai").1.messages :=
  (c3_system_prompt_isolation llmPlain [] [] [] "hai" (by intro m hm; simp at hm)).1

/-- C4 — a failing tool invocation does not abort the turn: the failure is
folded into the conversation as an error-carrying tool message, the loop
re-invokes the model, and when the model then answers without tool calls the
turn succeeds with that final answer, the error message persisted. -/
theorem c4_tool_failure_continues (llm : LLM) (catalog : List String) (tools : Tools)
    (history : List Msg) (userText : String)
    (r0 r1 : ModelResponse) (tc : ToolCall) (f : String → Except String String) (e : String)
    (Hr0 : r0 = llm catalog (buildModelInput (history ++ [HumanMessage userText])))
    (Htc : r0.tool_calls = [tc])
    (Hf : tools.lookup tc.name = some f)
    (He : f tc.args = Except.error e)
    (Hr1 : r1 = llm catalog (buildModelInput (history ++ [HumanMessage userText, aiMsgOf r0,
      ToolMessage ("Error: " ++ e ++ "\n Please fix your mistakes.") tc.id])))
    (H1 : r1.tool_calls = []) :
    (ainvoke llm catalog tools history userText).2 = none ∧
    (ainvoke llm catalog tools history userText).1.messages =
      history ++ [HumanMessage userText, aiMsgOf r0,
        ToolMessage ("Error: " ++ e ++ "\n Please fix your mistakes.") tc.id, aiMsgOf r1] ∧
    lastContent (ainvoke llm catalog tools history userText).1.messages = r1.content ∧
    ToolMessage ("Error: " ++ e ++ "\n Please fix your mistakes.") tc.id ∈
      (ainvoke llm catalog tools history userText).1.messages := by
  have hexec : execToolCall tools tc =
      ToolMessage ("Error: " ++ e ++ "\n Please fix your mistakes.") tc.id := by
    simp [execToolCall, Hf, He]
  have ha : ainvoke llm catalog tools history userText =
      runFrom llm catalog tools (24 + 1) Node.chatbot
        ⟨history ++ [HumanMessage userText], [], []⟩ := rfl
  have step1 := runFrom_chatbot_step llm catalog tools 24
    ⟨history ++ [HumanMessage userText], [], []⟩
    (by rw [← Hr0, Htc]; simp)
  have step2 := runFrom_tools_step llm catalog tools 23
    ⟨(history ++ [HumanMessage userText]) ++ [aiMsgOf (llm catalog (buildModelInput (history ++ [HumanMessage userText])))],
     [] ++ [buildModelInput (history ++ [HumanMessage userText])],
     [] ++ (llm catalog (buildModelInput (history ++ [HumanMessage userText]))).chunks.map chatChunkEvent⟩
    (aiMsgOf (llm catalog (buildModelInput (history ++ [HumanMessage userText]))))
    (List.getLast?_concat _)
  have hmsgs : ((history ++ [HumanMessage userText]) ++
        [aiMsgOf (llm catalog (buildModelInput (history ++ [HumanMessage userText])))]) ++
        (aiMsgOf (llm catalog (buildModelInput (history ++ [HumanMessage userText])))).tool_calls.map (execToolCall tools) =
      history ++ [HumanMessage userText, aiMsgOf r0,
        ToolMessage ("Error: " ++ e ++ "\n Please fix your mistakes.") tc.id] := by
    rw [← Hr0]
    show (history ++ [HumanMessage userText]) ++ [aiMsgOf r0] ++ r0.tool_calls.map (execToolCall tools) = _
    rw [Htc]
    simp [hexec]
  have step3 := runFrom_no_toolcalls llm catalog tools 22
    ⟨history ++ [HumanMessage userText, aiMsgOf r0,
        ToolMessage ("Error: " ++ e ++ "\n Please fix your mistakes.") tc.id],
     [] ++ [buildModelInput (history ++ [HumanMessage userText])],
     ([] ++ (llm catalog (buildModelInput (history ++ [HumanMessage userText]))).chunks.map chatChunkEvent) ++
       toolEventsOf (aiMsgOf (llm catalog (buildModelInput (history ++ [HumanMessage userText])))).tool_calls⟩
    (by rw [← Hr1]; exact H1)
  have hrun : ainvoke llm catalog tools history userText =
      runFrom llm catalog tools (22 + 1) Node.chatbot
        ⟨history ++ [HumanMessage userText, aiMsgOf r0,
            ToolMessage ("Error: " ++ e ++ "\n Please fix your mistakes.") tc.id],
         [] ++ [buildModelInput (history ++ [HumanMessage userText])],
         ([] ++ (llm catalog (buildModelInput (history ++ [HumanMessage userText]))).chunks.map chatChunkEvent) ++
           toolEventsOf (aiMsgOf (llm catalog (buildModelInput (history ++ [HumanMessage userText])))).tool_calls⟩ := by
    rw [ha, step1, step2, ← hmsgs]
  rw [hrun, step3, ← Hr1]
  refine ⟨rfl, by simp, ?_, by simp⟩
  simp [lastContent, List.getLast?_concat, aiMsgOf]

/-- A backend that first requests one `query` tool call and then, once a tool
message is in the history, answers directly; for the C4 witness. -/
def llmCallThenAnswer : LLM := fun _ msgs =>
  if msgs.length ≤ 2 then ⟨["sebentar"], [⟨"query", "call_1", "SELECT 1"⟩]⟩
  else ⟨["maaf, query gagal"], []⟩

/-- A tool set whose only tool always raises, for the C4 witness. -/
def failingTools : Tools := [("query", fun _ => Except.error "syntax error")]

/-- Witness for C4 at a concrete failing tool: the turn succeeds and the
error-carrying tool message is persisted. -/
theorem c4_witness :
    (ainvoke llmCallThenAnswer ["query"] failingTools [] "hai").2 = none ∧
    ToolMessage ("Error: " ++ "syntax error" ++ "\n Please fix your mistakes.") "call_1" ∈
      (ainvoke llmCallThenAnswer ["query"] failingTools [] "hai").1.messages :=
  ⟨(c4_tool_failure_continues llmCallThenAnswer ["query"] failingTools [] "hai"
      ⟨["sebentar"], [⟨"query", "call_1", "SELECT 1"⟩]⟩ ⟨["maaf, query gagal"], []⟩
      ⟨"query", "call_1", "SELECT 1"⟩ (fun _ => Except.error "syntax error") "syntax error"
      rfl rfl rfl rfl rfl rfl).1,
   (c4_tool_failure_continues llmCallThenAnswer ["query"] failingTools [] "hai"
      ⟨["sebentar"], [⟨"query", "call_1", "SELECT 1"⟩]⟩ ⟨["maaf, query gagal"], []⟩
      ⟨"query", "call_1", "SELECT 1"⟩ (fun _ => Except.error "syntax error") "syntax error"
      rfl rfl rfl rfl rfl rfl).2.2.2⟩

/-- The tool-call identifiers of a message's `tool_calls`. -/
def idsOf (m : Msg) : List String := m.tool_calls.map (fun tc => tc.id)

/-- Scan of the referential-integrity check: a tool message must carry a
`tool_call_id` among the identifiers emitted by the nearest preceding assistant
message, with only tool messages in between (any other role resets the open
identifier set). -/
def toolIntegrityAux : List String → List Msg → Bool
  | _, [] => true
  | allowed, m :: rest =>
    match m.role with
    | Role.tool =>
      (match m.tool_call_id with
       | some id => allowed.contains id
       | none => false) && toolIntegrityAux allowed rest
    | Role.ai => toolIntegrityAux (idsOf m) rest
    | _ => toolIntegrityAux [] rest

/-- Referential integrity of a conversation: no orphan tool-result messages. -/
def toolIntegrity (msgs : List Msg) : Bool := toolIntegrityAux [] msgs

/-- The identifier set left open after scanning a message list. -/
def scanAllowed : List String → List Msg → List String
  | allowed, [] => allowed
  | allowed, m :: rest =>
    match m.role with
    | Role.tool => scanAllowed allowed rest
    | Role.ai => scanAllowed (idsOf m) rest
    | _ => scanAllowed [] rest

theorem scanAllowed_append (xs ys : List Msg) :
    ∀ allowed, scanAllowed allowed (xs ++ ys) = scanAllowed (scanAllowed allowed xs) ys := by
  induction xs with
  | nil => intro a; rfl
  | cons m rest ih =>
    intro a
    cases hr : m.role <;> simp [scanAllowed, hr, ih]

theorem toolIntegrityAux_append (xs ys : List Msg) :
    ∀ allowed, toolIntegrityAux allowed (xs ++ ys) =
      (toolIntegrityAux allowed xs && toolIntegrityAux (scanAllowed allowed xs) ys) := by
  induction xs with
  | nil => intro a; simp [toolIntegrityAux, scanAllowed]
  | cons m rest ih =>
    intro a
    cases hr : m.role <;> simp [toolIntegrityAux, scanAllowed, hr, ih, Bool.and_assoc]

theorem execToolCall_tool_call_id (tools : Tools) (tc : ToolCall) :
    (execToolCall tools tc).tool_call_id = some tc.id := by
  unfold execToolCall
  cases tools.lookup tc.name with
  | none => rfl
  | some f => cases hf : f tc.args <;> simp [hf, ToolMessage]

/-- The tool messages `ToolNode` produces for calls whose identifiers are all
open pass the integrity scan. -/
theorem toolIntegrityAux_results (tools : Tools) :
    ∀ (tcs : List ToolCall) (allowed : List String),
      (∀ tc ∈ tcs, tc.id ∈ allowed) →
      toolIntegrityAux allowed (tcs.map (execToolCall tools)) = true := by
  intro tcs
  induction tcs with
  | nil => intro a _; rfl
  | cons tc rest ih =>
    intro a H
    have hrole := execToolCall_role tools tc
    have hid := execToolCall_tool_call_id tools tc
    simp only [List.map_cons, toolIntegrityAux, hrole, hid, Bool.and_eq_true]
    exact ⟨by simpa using H tc (List.mem_cons_self tc rest),
           ih a (fun x hx => H x (List.mem_cons_of_mem _ hx))⟩

/-- Referential integrity is preserved by the graph execution: both appends the
engine performs (one assistant message; the tool messages answering exactly the
last assistant message's calls) keep the conversation orphan-free. -/
theorem runFrom_integrity (llm : LLM) (catalog : List String) (tools : Tools) :
    ∀ (n : Nat) (node : Node) (s : RunState),
      toolIntegrity s.messages = true →
      (node = Node.tools → ∃ last, s.messages.getLast? = some last ∧
        scanAllowed [] s.messages = idsOf last) →
      toolIntegrity (runFrom llm catalog tools n node s).1.messages = true := by
  intro n
  induction n with
  | zero => intro node s h1 _; cases node <;> exact h1
  | succ n ih =>
    intro node s h1 h2
    cases node with
    | chatbot =>
      have h1' : toolIntegrity (s.messages ++
          [aiMsgOf (llm catalog (buildModelInput s.messages))]) = true := by
        unfold toolIntegrity at h1 ⊢
        rw [toolIntegrityAux_append, h1]
        simp [toolIntegrityAux, aiMsgOf]
      have h2' : ∃ last, (s.messages ++
            [aiMsgOf (llm catalog (buildModelInput s.messages))]).getLast? = some last ∧
          scanAllowed [] (s.messages ++
            [aiMsgOf (llm catalog (buildModelInput s.messages))]) =
            idsOf last :=
        ⟨aiMsgOf (llm catalog (buildModelInput s.messages)), List.getLast?_concat _,
         by rw [scanAllowed_append]; simp [scanAllowed, aiMsgOf]⟩
      simp only [runFrom]
      split
      · exact h1'
      · exact ih Node.tools _ h1' (fun _ => h2')
    | tools =>
      obtain ⟨last, hl, hscan⟩ := h2 rfl
      have hres : ToolNode tools s.messages = last.tool_calls.map (execToolCall tools) := by
        unfold ToolNode
        rw [hl]
      have h1' : toolIntegrity (s.messages ++ ToolNode tools s.messages) = true := by
        unfold toolIntegrity at h1 ⊢
        rw [toolIntegrityAux_append, h1, hres, hscan]
        simp only [Bool.true_and]
        exact toolIntegrityAux_results tools last.tool_calls (idsOf last)
          (fun tc htc => List.mem_map_of_mem _ htc)
      simp only [runFrom]
      exact ih Node.chatbot _ h1' (fun h => by cases h)

/-- C6 — referential integrity of persisted tool results: starting from an
orphan-free history, after any turn (completed or aborted) every persisted
tool-result message's `tool_call_id` matches a tool-call identifier of the
immediately preceding assistant message, with only sibling tool results in
between. -/
theorem c6_tool_result_integrity (llm : LLM) (catalog : List String) (tools : Tools)
    (history : List Msg) (userText : String)
    (H : toolIntegrity history = true) :
    toolIntegrity (ainvoke llm catalog tools history userText).1.messages = true := by
  have h0 : toolIntegrity (history ++ [HumanMessage userText]) = true := by
    unfold toolIntegrity at H ⊢
    rw [toolIntegrityAux_append, H]
    simp [toolIntegrityAux, HumanMessage]
  exact runFrom_integrity llm catalog tools recursion_limit Node.chatbot
    ⟨history ++ [HumanMessage userText], [], []⟩ h0 (fun h => by cases h)

/-- Witness for C6: a concrete turn with one (failing) tool round-trip stays
orphan-free. -/
theorem c6_witness :
    toolIntegrity (ainvoke llmCallThenAnswer ["query"] failingTools [] "hai").1.messages = true :=
  c6_tool_result_integrity llmCallThenAnswer ["query"] failingTools [] "hai" rfl

theorem stream_generator_append (xs ys : List StreamEvent) :
    stream_generator (xs ++ ys) = stream_generator xs ++ stream_generator ys :=
  List.filterMap_append xs ys _

theorem concatAll_append (xs ys : List String) :
    concatAll (xs ++ ys) = concatAll xs ++ concatAll ys := by
  induction xs with
  | nil => simp [concatAll]
  | cons x rest ih =>
    show x ++ concatAll (rest ++ ys) = (x ++ concatAll rest) ++ concatAll ys
    rw [ih, String.append_assoc]

/-- The chat-model chunk events of one response stream back exactly its
content: dropping empty chunks does not change the concatenation. -/
theorem stream_chunks_concat (r : ModelResponse) :
    concatAll (stream_generator (r.chunks.map chatChunkEvent)) = r.content := by
  show _ = concatAll r.chunks
  induction r.chunks with
  | nil => rfl
  | cons c rest ih =>
    by_cases hc : c = ""
    · subst hc
      simpa [stream_generator, chatChunkEvent, concatAll] using ih
    · simpa [stream_generator, chatChunkEvent, hc, concatAll] using congrArg (c ++ ·) ih

/-- Tool execution emits no chat-model chunk events, so it contributes no text
to the stream. -/
theorem stream_generator_toolEvents (tcs : List ToolCall) :
    stream_generator (toolEventsOf tcs) = [] := by
  induction tcs with
  | nil => rfl
  | cons tc rest ih => simpa [toolEventsOf, stream_generator] using ih

/-- Under a backend whose tool-call-bearing responses carry no text, the
streamed text of a completed graph run is exactly the final message's
content. -/
theorem runFrom_stream (llm : LLM) (catalog : List String) (tools : Tools)
    (H : ∀ cat msgs, (llm cat msgs).tool_calls ≠ [] → (llm cat msgs).content = "") :
    ∀ (n : Nat) (node : Node) (s : RunState),
      (runFrom llm catalog tools n node s).2 = none →
      concatAll (stream_generator (runFrom llm catalog tools n node s).1.events) =
        concatAll (stream_generator s.events) ++
          lastContent (runFrom llm catalog tools n node s).1.messages := by
  intro n
  induction n with
  | zero => intro node s h; cases node <;> simp [runFrom] at h
  | succ n ih =>
    intro node s
    cases node with
    | chatbot =>
      simp only [runFrom]
      split
      · next hr =>
        intro _
        rw [stream_generator_append, concatAll_append, stream_chunks_concat]
        simp [lastContent, List.getLast?_concat, aiMsgOf]
      · next hr =>
        intro h
        have hne : (llm catalog (buildModelInput s.messages)).tool_calls ≠ [] := by
          rw [tools_condition_concat] at hr
          simp only [aiMsgOf] at hr
          intro hnil
          rw [if_pos hnil] at hr
          simp at hr
        rw [ih Node.tools _ h, stream_generator_append, concatAll_append,
          stream_chunks_concat, H catalog (buildModelInput s.messages) hne]
        simp
    | tools =>
      intro h
      simp only [runFrom] at h ⊢
      rw [ih Node.chatbot _ h, stream_generator_append, concatAll_append,
        stream_generator_toolEvents]
      simp [concatAll]

/-- A backend that announces a tool call with visible text before answering,
for the C5 counterexample. -/
def llmChattyTool : LLM := fun _ msgs =>
  if msgs.length ≤ 2 then ⟨["pemeriksaan"], [⟨"query", "call_1", "SELECT 1"⟩]⟩
  else ⟨["jawaban"], []⟩

/-- A tool set whose only tool succeeds. -/
def okTools : Tools := [("query", fun _ => Except.ok "hasil")]

/-- C5 counterexample — the streamed concatenation is NOT always the
non-streaming answer: `on_chat_model_stream` events fire for every model
invocation, so a tool-call-bearing intermediate response with nonempty text
leaks that text into the stream.  Here the stream concatenates to
`pemeriksaanjawaban` while the non-streaming path answers `jawaban`. -/
theorem c5_counterexample :
    concatAll (chat_stream_endpoint llmChattyTool ["query"] okTools [] ⟨"hai", "t1"⟩).1 =
      "pemeriksaan" ++ "jawaban" ∧
    (chat_endpoint llmChattyTool ["query"] okTools [] ⟨"hai", "t1"⟩).1 =
      Except.ok ⟨"jawaban", "t1"⟩ ∧
    ¬concatAll (chat_stream_endpoint llmChattyTool ["query"] okTools [] ⟨"hai", "t1"⟩).1 =
        "jawaban" := by
  refine ⟨rfl, rfl, fun hcontra => ?_⟩
  rw [show concatAll (chat_stream_endpoint llmChattyTool ["query"] okTools [] ⟨"hai", "t1"⟩).1 =
      "pemeriksaanjawaban" from rfl] at hcontra
  simp at hcontra

/-- C5 (amended) — for every turn whose tool-call-bearing model responses all
carry empty textual content (the silent-intermediate discipline), the
concatenation of the increments yielded by the streaming path equals the
answer of the non-streaming path against the identical deterministic backend;
tool executions themselves contribute no text.  In general the stream
concatenates the text of every model response of the turn, not only the last
one. -/
theorem c5_stream_matches (llm : LLM) (catalog : List String) (tools : Tools)
    (store : Store) (req : ChatRequest)
    (H : ∀ cat msgs, (llm cat msgs).tool_calls ≠ [] → (llm cat msgs).content = "")
    (resp : ChatResponse)
    (Hok : (chat_endpoint llm catalog tools store req).1 = Except.ok resp) :
    concatAll (chat_stream_endpoint llm catalog tools store req).1 = resp.response := by
  cases herr : (ainvoke llm catalog tools (getThread store req.thread_id) req.message).2 with
  | some e =>
    exfalso
    simp only [chat_endpoint, herr] at Hok
    exact absurd Hok (by simp)
  | none =>
    have hresp : resp =
        ⟨lastContent (ainvoke llm catalog tools (getThread store req.thread_id)
            req.message).1.messages, req.thread_id⟩ := by
      simp only [chat_endpoint, herr] at Hok
      exact (Except.ok.inj Hok).symm
    have hmain := runFrom_stream llm catalog tools H recursion_limit Node.chatbot
      ⟨getThread store req.thread_id ++ [HumanMessage req.message], [], []⟩ herr
    rw [show (chat_stream_endpoint llm catalog tools store req).1 =
        stream_generator (ainvoke llm catalog tools (getThread store req.thread_id)
          req.message).1.events from rfl, hresp]
    simpa [stream_generator, concatAll] using hmain

/-- A backend that requests its tool call silently before answering, for the
C5 witness. -/
def llmSilentTool : LLM := fun _ msgs =>
  if msgs.length ≤ 2 then ⟨[], [⟨"query", "call_1", "SELECT 1"⟩]⟩
  else ⟨["jawaban"], []⟩

/-- Witness for C5's amended equivalence at a concrete silent backend. -/
theorem c5_witness :
    concatAll (chat_stream_endpoint llmSilentTool ["query"] okTools [] ⟨"hai", "t1"⟩).1 =
      ChatResponse.response ⟨"jawaban", "t1"⟩ :=
  c5_stream_matches llmSilentTool ["query"] okTools [] ⟨"hai", "t1"⟩
    (by
      intro cat msgs hne
      by_cases hl : msgs.length ≤ 2
      · simp [llmSilentTool, hl, ModelResponse.content, concatAll]
      · simp [llmSilentTool, hl] at hne)
    ⟨"jawaban", "t1"⟩ rfl

end EaseAssistant
